import Mathlib

/-!
Verification of the `csp` package: a Content-Security-Policy header
serializer.  The Go source (`csp.go`) is shallowly embedded below: keyword
constants, the keyword registry test `IsKeywordSource`, the token
normalizers `canon` / `canons`, the `Directives` struct, the serializer
`Policy`, and the presets `Basic` / `BasicTight`.
-/

namespace CSP

/-- Embedding of Go `unicode.IsSpace`, the character class trimmed by
`strings.TrimSpace`: the Unicode White_Space code points. -/
def goIsSpace (c : Char) : Bool :=
  c == ' ' || c == '\t' || c == '\n' || c == Char.ofNat 0x0B ||
  c == Char.ofNat 0x0C || c == '\r' || c == Char.ofNat 0x85 ||
  c == Char.ofNat 0xA0 || c == Char.ofNat 0x1680 ||
  (0x2000 ≤ c.toNat && c.toNat ≤ 0x200A) || c == Char.ofNat 0x2028 ||
  c == Char.ofNat 0x2029 || c == Char.ofNat 0x202F ||
  c == Char.ofNat 0x205F || c == Char.ofNat 0x3000

/-- Drop leading white space from a character list. -/
def trimLeftL (l : List Char) : List Char := l.dropWhile goIsSpace

/-- Drop trailing white space from a character list. -/
def trimRightL (l : List Char) : List Char :=
  (l.reverse.dropWhile goIsSpace).reverse

/-- Embedding of Go `strings.TrimSpace`: remove leading and trailing
white space. -/
def trimSpace (s : String) : String := ⟨trimRightL (trimLeftL s.data)⟩

/-- Embedding of Go `strings.ToLower` (per-rune simple lower-casing;
faithful on the ASCII range, which is all the keyword registry uses). -/
def goToLower (s : String) : String := ⟨s.data.map Char.toLower⟩

/-- HeaderKey is the canonical form of the Content Security Policy header key. -/
def HeaderKey : String := "Content-Security-Policy"

/-- Acceptable webrtc value "allow". -/
def WebRTCAllow : String := "'allow'"

/-- Acceptable webrtc value "block". -/
def WebRTCBlock : String := "'block'"

/-- Keyword-source constant. -/
def SourceNone : String := "'none'"

/-- Keyword-source constant. -/
def SourceSelf : String := "'self'"

/-- Keyword-source constant. -/
def SourceUnsafeInline : String := "'unsafe-inline'"

/-- Keyword-source constant. -/
def SourceUnsafeEval : String := "'unsafe-eval'"

/-- Keyword-source constant. -/
def SourceStrictDynamic : String := "'strict-dynamic'"

/-- Keyword-source constant. -/
def SourceUnsafeHashes : String := "'unsafe-hashes'"

/-- Keyword-source constant. -/
def SourceReportSample : String := "'report-sample'"

/-- Keyword-source constant. -/
def SourceUnsafeAllowRedirects : String := "'unsafe-allow-redirects'"

/-- Keyword-source constant. -/
def SourceWasmUnsafeEval : String := "'wasm-unsafe-eval'"

/-- The `sources` slice built inside `IsKeywordSource`. -/
def keywordSources : List String :=
  [ SourceNone,
    SourceSelf,
    SourceUnsafeInline,
    SourceUnsafeEval,
    SourceStrictDynamic,
    SourceUnsafeHashes,
    SourceReportSample,
    SourceUnsafeAllowRedirects,
    SourceWasmUnsafeEval,
    WebRTCAllow,
    WebRTCBlock ]

/-- IsKeywordSource returns true if s is a valid keyword-source as described
in Content Security Policy Level 3 (`slices.Contains(sources, s)`). -/
def IsKeywordSource (s : String) : Bool := keywordSources.contains s

/-- canon returns s trimmed of leading and trailing white space.  If s is a
keyword-source, it is also lowered and enclosed in single-quotes. -/
def canon (s : String) : String :=
  let c := trimSpace s
  let kw := "'" ++ goToLower c ++ "'"
  if IsKeywordSource kw then kw else c

/-- canons applies `canon` to every element of the slice. -/
def canons (ss : List String) : List String := ss.map canon

/-- CName maps the csp package's variable names to directive names as
outlined in Content Security Policy Level 3. -/
def CName : List (String × String) :=
  [ ("BaseURI", "base-uri"),
    ("ChildSrc", "child-src"),
    ("ConnectSrc", "connect-src"),
    ("DefaultSrc", "default-src"),
    ("FontSrc", "font-src"),
    ("FormAction", "form-action"),
    ("FrameAncestors", "frame-ancestors"),
    ("FrameSrc", "frame-src"),
    ("ImgSrc", "img-src"),
    ("ManifestSrc", "manifest-src"),
    ("MediaSrc", "media-src"),
    ("ObjectSrc", "object-src"),
    ("ReportTo", "report-to"),
    ("Sandbox", "sandbox"),
    ("ScriptSrc", "script-src"),
    ("ScriptSrcAttr", "script-src-attr"),
    ("ScriptSrcElem", "script-src-elem"),
    ("StyleSrc", "style-src"),
    ("StyleSrcAttr", "style-src-attr"),
    ("StyleSrcElem", "style-src-elem"),
    ("WebRTC", "webrtc"),
    ("WorkerSrc", "worker-src") ]

/-- Go map indexing `CName[k]`: the mapped value, or the zero string when
the key is absent. -/
def CNameGet (k : String) : String := ((CName.lookup k).getD "")

/-- Directives represent possible Content Security Policy rules.  Field
order matches the Go struct declaration order, which `Policy` iterates. -/
structure Directives where
  BaseURI : List String := []
  ChildSrc : List String := []
  ConnectSrc : List String := []
  DefaultSrc : List String := []
  FontSrc : List String := []
  FormAction : List String := []
  FrameAncestors : List String := []
  FrameSrc : List String := []
  ImgSrc : List String := []
  ManifestSrc : List String := []
  MediaSrc : List String := []
  ObjectSrc : List String := []
  ReportTo : String := ""
  Sandbox : String := ""
  ScriptSrc : List String := []
  ScriptSrcAttr : List String := []
  ScriptSrcElem : List String := []
  StyleSrc : List String := []
  StyleSrcAttr : List String := []
  StyleSrcElem : List String := []
  WebRTC : String := ""
  WorkerSrc : List String := []

/-- The loop body of `Policy` for a slice-valued field: when the slice is
non-empty, write `fmt.Sprintf("%s %s; ", dName, strings.Join(canons(slice), " "))`. -/
def sliceClause (dName : String) (slice : List String) : String :=
  if slice.length > 0 then
    dName ++ " " ++ String.intercalate " " (canons slice) ++ "; "
  else ""

/-- The loop body of `Policy` for a string-valued field: when `canon` of the
value (the loop's `dVal`) is non-empty, write
`fmt.Sprintf("%s %s; ", dName, dVal)`. -/
def stringClause (dName : String) (v : String) : String :=
  if canon v ≠ "" then dName ++ " " ++ canon v ++ "; " else ""

/-- The per-field strings written by `Policy`'s reflection loop, in the
struct's declaration order (omitted fields contribute the empty string). -/
def dirClauses (ds : Directives) : List String :=
  [ sliceClause (CNameGet "BaseURI") ds.BaseURI,
    sliceClause (CNameGet "ChildSrc") ds.ChildSrc,
    sliceClause (CNameGet "ConnectSrc") ds.ConnectSrc,
    sliceClause (CNameGet "DefaultSrc") ds.DefaultSrc,
    sliceClause (CNameGet "FontSrc") ds.FontSrc,
    sliceClause (CNameGet "FormAction") ds.FormAction,
    sliceClause (CNameGet "FrameAncestors") ds.FrameAncestors,
    sliceClause (CNameGet "FrameSrc") ds.FrameSrc,
    sliceClause (CNameGet "ImgSrc") ds.ImgSrc,
    sliceClause (CNameGet "ManifestSrc") ds.ManifestSrc,
    sliceClause (CNameGet "MediaSrc") ds.MediaSrc,
    sliceClause (CNameGet "ObjectSrc") ds.ObjectSrc,
    stringClause (CNameGet "ReportTo") ds.ReportTo,
    stringClause (CNameGet "Sandbox") ds.Sandbox,
    sliceClause (CNameGet "ScriptSrc") ds.ScriptSrc,
    sliceClause (CNameGet "ScriptSrcAttr") ds.ScriptSrcAttr,
    sliceClause (CNameGet "ScriptSrcElem") ds.ScriptSrcElem,
    sliceClause (CNameGet "StyleSrc") ds.StyleSrc,
    sliceClause (CNameGet "StyleSrcAttr") ds.StyleSrcAttr,
    sliceClause (CNameGet "StyleSrcElem") ds.StyleSrcElem,
    stringClause (CNameGet "WebRTC") ds.WebRTC,
    sliceClause (CNameGet "WorkerSrc") ds.WorkerSrc ]

/-- The `strings.Builder`: the concatenation of every written string, in
order. -/
def writeAll (l : List String) : String := l.foldr (· ++ ·) ""

/-- Policy returns a white space joined string of all directives where each
directive ends in a semi-colon (`strings.TrimSpace` of the builder's
contents). -/
def Policy (ds : Directives) : String :=
  trimSpace (writeAll (dirClauses ds))

/-- Basic returns a simple, non-strict CSP policy. -/
def Basic : String :=
  Policy { DefaultSrc := [SourceSelf],
           FormAction := [SourceSelf],
           FrameAncestors := [SourceSelf] }

/-- BasicTight returns a tightened form of the simple, non-strict CSP
policy. -/
def BasicTight : String :=
  Policy { DefaultSrc := [SourceNone],
           ConnectSrc := [SourceSelf],
           FormAction := [SourceSelf],
           FrameAncestors := [SourceSelf],
           ImgSrc := [SourceSelf],
           ScriptSrc := [SourceSelf],
           StyleSrc := [SourceSelf] }

/-- The spec's contract for a single token, stated as the spec words it:
trim leading/trailing whitespace; lower-case the trimmed value and wrap it
in single quotes; if that wrapped form is a recognized keyword, return the
wrapped-and-lowered form, otherwise the trimmed form. -/
def canonSpec (s : String) : String :=
  let c := trimSpace s
  if IsKeywordSource ("'" ++ goToLower c ++ "'") then "'" ++ goToLower c ++ "'"
  else c

/-- The unquoted bareword of a quoted keyword literal: the literal with its
first and last characters removed. -/
def bareword (kw : String) : String := ⟨(kw.data.drop 1).dropLast⟩

/-- The clauses `Policy` actually emits: the per-field strings with the
omitted (empty) ones filtered out. -/
def clauseList (ds : Directives) : List String :=
  (dirClauses ds).filter (fun c => c != "")

/-- A well-formed emitted clause: it ends in the `"; "` separator and its
first character is not white space. -/
def goodClause (c : String) : Prop :=
  (∃ p, c = p ++ "; ") ∧ ∃ a u, c.data = a :: u ∧ goIsSpace a = false

section Lemmas

/-- `dropWhile` is idempotent. -/
theorem dropWhile_dropWhile {α : Type} (p : α → Bool) (l : List α) :
    (l.dropWhile p).dropWhile p = l.dropWhile p := by
  induction l with
  | nil => rfl
  | cons a t ih =>
      by_cases h : p a
      · simp [List.dropWhile_cons, h, ih]
      · simp [List.dropWhile_cons, h]

/-- `trimRightL` removes a (reversed) takeWhile suffix: what it drops can
be appended back. -/
theorem trimRightL_append_eq (l : List Char) :
    trimRightL l ++ (l.reverse.takeWhile goIsSpace).reverse = l := by
  have h2 := congrArg List.reverse (List.takeWhile_append_dropWhile goIsSpace l.reverse)
  rw [List.reverse_append, List.reverse_reverse] at h2
  exact h2

/-- `trimRightL` is idempotent. -/
theorem trimRightL_trimRightL (l : List Char) :
    trimRightL (trimRightL l) = trimRightL l := by
  simp [trimRightL, dropWhile_dropWhile]

/-- A list obtained by `trimRightL` from a list with a non-space head is
empty or keeps that head. -/
theorem trimRightL_head (a : Char) (t : List Char) :
    trimRightL (a :: t) = [] ∨ ∃ r, trimRightL (a :: t) = a :: r := by
  have h := trimRightL_append_eq (a :: t)
  cases hr : trimRightL (a :: t) with
  | nil => exact Or.inl rfl
  | cons b r =>
      right
      rw [hr] at h
      have hb : b = a := by
        have := congrArg (fun l => l.head?) h
        simpa using this
      exact ⟨r, by rw [hb]⟩

/-- Left trimming after a full trim is a no-op. -/
theorem trimLeftL_trim (l : List Char) :
    trimLeftL (trimRightL (trimLeftL l)) = trimRightL (trimLeftL l) := by
  cases hu : trimLeftL l with
  | nil => simp [trimRightL, trimLeftL]
  | cons a t =>
      have ha : goIsSpace a = false := by
        have hne : l.dropWhile goIsSpace ≠ [] := by
          intro hnil
          rw [trimLeftL] at hu
          rw [hnil] at hu
          cases hu
        have hh := List.head_dropWhile_not goIsSpace l hne
        have : (l.dropWhile goIsSpace).head hne = a := by
          have : l.dropWhile goIsSpace = a :: t := hu
          simp [this]
        rwa [this] at hh
      rcases trimRightL_head a t with h | ⟨r, h⟩
      · rw [h]; rfl
      · rw [h, trimLeftL, List.dropWhile_cons_of_neg (by simp [ha])]

/-- `trimSpace` is idempotent. -/
theorem trimSpace_trimSpace (s : String) :
    trimSpace (trimSpace s) = trimSpace s := by
  show (⟨trimRightL (trimLeftL (trimRightL (trimLeftL s.data)))⟩ : String) = _
  rw [trimLeftL_trim, trimRightL_trimRightL]
  rfl

/-- `IsKeywordSource` decides membership in the keyword registry list. -/
theorem isKeywordSource_eq_mem (s : String) :
    IsKeywordSource s = true ↔ s ∈ keywordSources := by
  simp [IsKeywordSource, List.contains]

/-- Every registry literal is a fixed point of `canon`. -/
theorem canon_fixed_on_keywords : ∀ w ∈ keywordSources, canon w = w := by decide

/-- `canon` is idempotent. -/
theorem canon_canon (t : String) : canon (canon t) = canon t := by
  by_cases h : IsKeywordSource ("'" ++ goToLower (trimSpace t) ++ "'") = true
  · have h1 : canon t = "'" ++ goToLower (trimSpace t) ++ "'" := by
      simp [canon, h]
    rw [h1]
    exact canon_fixed_on_keywords _ ((isKeywordSource_eq_mem _).mp h)
  · have h1 : canon t = trimSpace t := by
      simp [canon, h]
    rw [h1]
    simp [canon, trimSpace_trimSpace, h]

/-- A slice clause is omitted or well formed (given a non-space-headed
directive name). -/
theorem sliceClause_good (n : String) (s : List String) (hne : n.data ≠ [])
    (ha : goIsSpace n.data.headI = false) :
    sliceClause n s = "" ∨ goodClause (sliceClause n s) := by
  obtain ⟨a, r, hn⟩ := List.exists_cons_of_ne_nil hne
  rw [hn] at ha
  simp only [List.headI] at ha
  unfold sliceClause
  split
  · right
    constructor
    · exact ⟨n ++ " " ++ String.intercalate " " (canons s), rfl⟩
    · have hd : (n ++ " " ++ String.intercalate " " (canons s) ++ "; ").data
          = a :: (r ++ (" ".data ++ ((String.intercalate " " (canons s)).data
              ++ "; ".data))) := by
        simp [String.data_append, hn]
      exact ⟨a, _, hd, ha⟩
  · left; rfl

/-- A string clause is omitted or well formed (given a non-space-headed
directive name). -/
theorem stringClause_good (n v : String) (hne : n.data ≠ [])
    (ha : goIsSpace n.data.headI = false) :
    stringClause n v = "" ∨ goodClause (stringClause n v) := by
  obtain ⟨a, r, hn⟩ := List.exists_cons_of_ne_nil hne
  rw [hn] at ha
  simp only [List.headI] at ha
  unfold stringClause
  split
  · right
    constructor
    · exact ⟨n ++ " " ++ canon v, rfl⟩
    · have hd : (n ++ " " ++ canon v ++ "; ").data
          = a :: (r ++ (" ".data ++ ((canon v).data ++ "; ".data))) := by
        simp [String.data_append, hn]
      exact ⟨a, _, hd, ha⟩
  · left; rfl

/-- Every entry of `dirClauses` is either omitted (empty) or a well-formed
clause. -/
theorem mem_dirClauses_good (ds : Directives) :
    ∀ c ∈ dirClauses ds, c = "" ∨ goodClause c := by
  intro c hc
  simp only [dirClauses, List.mem_cons, List.not_mem_nil, or_false] at hc
  rcases hc with rfl|rfl|rfl|rfl|rfl|rfl|rfl|rfl|rfl|rfl|rfl|rfl|rfl|rfl|rfl|rfl|rfl|rfl|rfl|rfl|rfl|rfl <;>
    first
      | exact sliceClause_good _ _ (by decide) (by decide)
      | exact stringClause_good _ _ (by decide) (by decide)

/-- Filtering out the empty strings does not change the concatenation. -/
theorem writeAll_filter (l : List String) :
    writeAll (l.filter (fun c => c != "")) = writeAll l := by
  induction l with
  | nil => rfl
  | cons a t ih =>
      by_cases h : a = ""
      · subst h
        simpa [writeAll] using ih
      · have hb : (a != "") = true := by simpa using h
        have hf : List.filter (fun c => c != "") (a :: t)
            = a :: List.filter (fun c => c != "") t := by
          simp [List.filter_cons, hb]
        rw [hf]
        show a ++ writeAll (List.filter (fun c => c != "") t) = a ++ writeAll t
        rw [ih]

/-- A concatenation of well-formed clauses ends in `"; "`. -/
theorem writeAll_ends (l : List String) (hne : l ≠ [])
    (hgood : ∀ c ∈ l, goodClause c) :
    ∃ m, (writeAll l).data = m ++ ("; ").data := by
  induction l with
  | nil => exact absurd rfl hne
  | cons a t ih =>
      cases t with
      | nil =>
          obtain ⟨⟨p, hp⟩, _⟩ := hgood a (by simp)
          refine ⟨p.data, ?_⟩
          have : writeAll [a] = a := by simp [writeAll]
          rw [this, hp, String.data_append]
      | cons b t' =>
          obtain ⟨m, hm⟩ := ih (by simp) (fun c hc => hgood c (by simp [hc]))
          refine ⟨a.data ++ m, ?_⟩
          have : writeAll (a :: b :: t') = a ++ writeAll (b :: t') := rfl
          rw [this, String.data_append, hm, List.append_assoc]

/-- `trimRightL` of a list ending in `"; "` strips exactly the final
space. -/
theorem trimRightL_semi (m : List Char) :
    trimRightL (m ++ ("; ").data) = m ++ [';'] := by
  have h1 : ("; ").data = [';', ' '] := by decide
  rw [h1]
  have h2 : (m ++ [';', ' ']).reverse = ' ' :: ';' :: m.reverse := by
    simp
  rw [trimRightL, h2, List.dropWhile_cons_of_pos (by decide),
    List.dropWhile_cons_of_neg (by decide)]
  simp

/-- Trimming the concatenation of well-formed clauses removes exactly the
final trailing space. -/
theorem trim_writeAll (l : List String) (hne : l ≠ [])
    (hgood : ∀ c ∈ l, goodClause c) :
    trimSpace (writeAll l) ++ " " = writeAll l := by
  obtain ⟨c, t, rfl⟩ := List.exists_cons_of_ne_nil hne
  obtain ⟨_, a, u, hcd, haf⟩ := hgood c (by simp)
  obtain ⟨m, hm⟩ := writeAll_ends (c :: t) (by simp) hgood
  have hw : writeAll (c :: t) = c ++ writeAll t := rfl
  have hdata : (writeAll (c :: t)).data = a :: (u ++ (writeAll t).data) := by
    rw [hw, String.data_append, hcd]; rfl
  have hleft : trimLeftL ((writeAll (c :: t)).data) = (writeAll (c :: t)).data := by
    rw [hdata, trimLeftL, List.dropWhile_cons_of_neg (by simp [haf])]
  have hright : trimRightL ((writeAll (c :: t)).data) = m ++ [';'] := by
    rw [hm]; exact trimRightL_semi m
  have hts : trimSpace (writeAll (c :: t)) = ⟨m ++ [';']⟩ := by
    show (⟨trimRightL (trimLeftL ((writeAll (c :: t)).data))⟩ : String) = _
    rw [hleft, hright]
  rw [hts]
  have : (⟨m ++ [';']⟩ : String) ++ " " = ⟨m ++ [';'] ++ (" ").data⟩ := rfl
  rw [this]
  have hsp : ([';'] ++ (" ").data) = ("; ").data := by decide
  have : m ++ [';'] ++ (" ").data = m ++ ("; ").data := by
    rw [List.append_assoc, hsp]
  rw [this, ← hm]

/-- Any string whose first two characters are two single quotes is not a
registry keyword: every registry literal has a letter after its opening
quote. -/
theorem not_keyword_of_double_quote (w : String)
    (h : w.data.take 2 = ("''").data) : IsKeywordSource w = false := by
  cases hk : IsKeywordSource w with
  | false => rfl
  | true =>
      exfalso
      have hmem := (isKeywordSource_eq_mem w).mp hk
      simp only [keywordSources, SourceNone, SourceSelf, SourceUnsafeInline,
        SourceUnsafeEval, SourceStrictDynamic, SourceUnsafeHashes,
        SourceReportSample, SourceUnsafeAllowRedirects, SourceWasmUnsafeEval,
        WebRTCAllow, WebRTCBlock, List.mem_cons, List.not_mem_nil,
        or_false] at hmem
      rcases hmem with rfl|rfl|rfl|rfl|rfl|rfl|rfl|rfl|rfl|rfl|rfl <;>
        exact absurd h (by decide)

/-- Cancelling a common final element of two lists. -/
theorem append_singleton_cancel {α : Type} (x y : List α) (c : α)
    (h : x ++ [c] = y ++ [c]) : x = y := by
  have h2 := congrArg List.reverse h
  simp at h2
  exact h2

end Lemmas

/-- Claim C1: `Policy` applied to the directive set with
`DefaultSrc = ["self"]`, `StyleSrc = ["self", "example.com"]`,
`ReportTo = "jd@example.com"` and every other slot empty returns exactly
`"default-src 'self'; report-to jd@example.com; style-src 'self' example.com;"`:
the bareword `self` is canonicalized to `'self'` and the three clauses
appear in the fixed declaration order. -/
theorem policy_mixed_scenario :
    Policy { DefaultSrc := ["self"],
             StyleSrc := ["self", "example.com"],
             ReportTo := "jd@example.com" } =
      "default-src 'self'; report-to jd@example.com; style-src 'self' example.com;" := by
  decide

/-- Claim C2: for every `Directives`, the output of `Policy` is the
concatenation, in the fixed declaration order of the struct's fields, of
one clause per non-omitted slot, with trailing whitespace trimmed from the
final result: every emitted clause ends in `"; "`, and when any clause is
emitted the output plus a single trailing space equals the raw
concatenation, so the output itself ends in `";"`. -/
theorem policy_clause_structure (ds : Directives) :
    Policy ds = trimSpace (writeAll (clauseList ds)) ∧
    (∀ c ∈ clauseList ds, ∃ p, c = p ++ "; ") ∧
    (clauseList ds = [] → Policy ds = "") ∧
    (clauseList ds ≠ [] →
      Policy ds ++ " " = writeAll (clauseList ds) ∧
      ∃ q, Policy ds = q ++ ";") := by
  have hw : writeAll (clauseList ds) = writeAll (dirClauses ds) :=
    writeAll_filter _
  have h1 : Policy ds = trimSpace (writeAll (clauseList ds)) := by
    show trimSpace (writeAll (dirClauses ds)) = _
    rw [hw]
  refine ⟨h1, ?_, ?_, ?_⟩
  · intro c hc
    obtain ⟨hmem, hneq⟩ := List.mem_filter.mp hc
    rcases mem_dirClauses_good ds c hmem with h0 | hgood
    · exact absurd h0 (by simpa using hneq)
    · exact hgood.1
  · intro h0
    have h2 : writeAll (clauseList ds) = "" := by rw [h0]; rfl
    rw [h1, h2]
    decide
  · intro hne
    have hgood : ∀ c ∈ clauseList ds, goodClause c := by
      intro c hc
      obtain ⟨hmem, hneq⟩ := List.mem_filter.mp hc
      rcases mem_dirClauses_good ds c hmem with h0 | hgood
      · exact absurd h0 (by simpa using hneq)
      · exact hgood
    have htr := trim_writeAll (clauseList ds) hne hgood
    have hcat : Policy ds ++ " " = writeAll (clauseList ds) := by
      rw [h1]; exact htr
    refine ⟨hcat, ?_⟩
    obtain ⟨m, hm⟩ := writeAll_ends (clauseList ds) hne hgood
    refine ⟨⟨m⟩, ?_⟩
    have hsp : (" ").data = [' '] := by decide
    have hP : (Policy ds).data ++ [' '] = (writeAll (clauseList ds)).data := by
      have h3 := congrArg String.data hcat
      rw [String.data_append, hsp] at h3
      exact h3
    have hsemi : ("; ").data = [';', ' '] := by decide
    have h4 : (Policy ds).data ++ [' '] = (m ++ [';']) ++ [' '] := by
      rw [hP, hm, hsemi, List.append_assoc]
      rfl
    have h5 : (Policy ds).data = m ++ [';'] :=
      append_singleton_cancel _ _ _ h4
    have hsc : (";").data = [';'] := by decide
    have h6 : ((⟨m⟩ : String) ++ ";").data = m ++ [';'] := by
      show m ++ (";").data = m ++ [';']
      rw [hsc]
    exact String.ext (h6 ▸ h5)

/-- Claim C2 witness: the structure theorem applied to a concrete
directive set. -/
theorem policy_clause_structure_witness :
    Policy { DefaultSrc := ["'self'"] } ++ " " =
      writeAll (clauseList { DefaultSrc := ["'self'"] }) :=
  ((policy_clause_structure { DefaultSrc := ["'self'"] }).2.2.2 (by decide)).1

/-- Claim C3: `canon` equals, on every string, the spec's description
(`canonSpec`): trim, then return the wrapped-and-lowered form exactly when
it is a registry keyword, and the trimmed form verbatim otherwise; `canon`
is total, so it never fails. -/
theorem canon_matches_spec : ∀ s, canon s = canonSpec s := fun _ => rfl

/-- Claim C4: an empty list-valued slot and a scalar slot that trims to
the empty string contribute no clause, and the all-empty directive set
serializes to the empty string. -/
theorem empty_slots_omitted :
    (∀ name, sliceClause name [] = "") ∧
    (∀ name v, trimSpace v = "" → stringClause name v = "") ∧
    Policy {} = "" := by
  refine ⟨fun name => rfl, ?_, by decide⟩
  intro name v h
  have hc : canon v = "" := by
    have he : canon v =
        if IsKeywordSource ("'" ++ goToLower (trimSpace v) ++ "'")
        then "'" ++ goToLower (trimSpace v) ++ "'" else trimSpace v := rfl
    rw [he, h]
    decide
  simp [stringClause, hc]

/-- Claim C4 witness: a whitespace-only scalar emits nothing. -/
theorem empty_slots_omitted_witness : stringClause "report-to" "   " = "" :=
  empty_slots_omitted.2.1 "report-to" "   " (by decide)

/-- Claim C5: every registry literal is reached from its unquoted
bareword, from the bareword with surrounding whitespace, from the bareword
upper-cased with surrounding whitespace, and from the quoted literal
itself; concretely `canon "self" = canon "  Self  " = canon "'self'" =
"'self'"`. -/
theorem keyword_roundtrip :
    (∀ kw ∈ keywordSources,
        canon (bareword kw) = kw ∧
        canon ("  " ++ bareword kw ++ "  ") = kw ∧
        canon ("  " ++ (⟨(bareword kw).data.map Char.toUpper⟩ : String) ++ "  ") = kw ∧
        canon kw = kw) ∧
    (canon "self" = "'self'" ∧ canon "  Self  " = "'self'" ∧
      canon "'self'" = "'self'") := by
  refine ⟨by decide, by decide, by decide, by decide⟩

/-- Claim C5 witness: the round trip instantiated at the literal
`'none'`. -/
theorem keyword_roundtrip_witness : canon (bareword "'none'") = "'none'" :=
  (keyword_roundtrip.1 "'none'" (by decide)).1

/-- Claim C6: token normalization is idempotent, pointwise and
element-wise. -/
theorem canon_idempotent :
    (∀ t, canon (canon t) = canon t) ∧
    (∀ ss, canons (canons ss) = canons ss) := by
  refine ⟨canon_canon, ?_⟩
  intro ss
  induction ss with
  | nil => rfl
  | cons a t ih =>
      show canon (canon a) :: canons (canons t) = canon a :: canons t
      rw [canon_canon a, ih]

/-- Claim C7: `IsKeywordSource` returns true exactly on the eleven fixed
single-quoted literals, byte-for-byte; everything else returns false. -/
theorem isKeywordSource_characterization (s : String) :
    IsKeywordSource s = true ↔
      (s = "'none'" ∨ s = "'self'" ∨ s = "'unsafe-inline'" ∨
       s = "'unsafe-eval'" ∨ s = "'strict-dynamic'" ∨
       s = "'unsafe-hashes'" ∨ s = "'report-sample'" ∨
       s = "'unsafe-allow-redirects'" ∨ s = "'wasm-unsafe-eval'" ∨
       s = "'allow'" ∨ s = "'block'") := by
  rw [isKeywordSource_eq_mem]
  simp [keywordSources, SourceNone, SourceSelf, SourceUnsafeInline,
    SourceUnsafeEval, SourceStrictDynamic, SourceUnsafeHashes,
    SourceReportSample, SourceUnsafeAllowRedirects, SourceWasmUnsafeEval,
    WebRTCAllow, WebRTCBlock]

/-- Claim C8: the `BasicTight` preset serializes to exactly the documented
string. -/
theorem basicTight_value :
    BasicTight =
      "connect-src 'self'; default-src 'none'; form-action 'self'; frame-ancestors 'self'; img-src 'self'; script-src 'self'; style-src 'self';" := by
  decide

/-- Claim C9: a non-empty list of tokens always emits a clause, even when
every token normalizes to the empty string: the emit decision counts list
elements. -/
theorem list_slot_emits_on_nonempty :
    Policy { DefaultSrc := [""] } = "default-src ;" ∧
    ∀ name ss, (sliceClause name ss = "" ↔ ss = []) := by
  refine ⟨by decide, ?_⟩
  intro name ss
  cases ss with
  | nil => simp [sliceClause]
  | cons a t =>
      constructor
      · intro h
        exfalso
        have he : sliceClause name (a :: t) =
            name ++ " " ++ String.intercalate " " (canons (a :: t)) ++ "; " := by
          simp [sliceClause]
        rw [he] at h
        have hd := congrArg String.data h
        have hsemi : ("; ").data = [';', ' '] := by decide
        simp [String.data_append, hsemi] at hd
      · intro h
        cases h

/-- Claim C10: every token that is already enclosed in single quotes
(its trimmed form begins with a quote, in particular every quoted token
whose letters are not all lower case) is returned by `canon` verbatim
after trimming, never canonicalized: re-wrapping such a token yields a
string opening with two quotes, which is not a registry member;
concretely `canon "'SELF'" = "'SELF'"` because `"''self''"` is not in the
registry. -/
theorem quoted_uppercase_not_canonicalized :
    (∀ s : String, (trimSpace s).data.take 1 = ("'").data →
        canon s = trimSpace s) ∧
    canon "'SELF'" = "'SELF'" ∧
    IsKeywordSource "''self''" = false := by
  refine ⟨?_, by decide, by decide⟩
  intro s h
  cases hd : (trimSpace s).data with
  | nil =>
      rw [hd] at h
      exact absurd h (by decide)
  | cons a r =>
      rw [hd] at h
      have h1 : [a] = ("'").data := h
      have ha : a = ("'").data.headI := congrArg List.headI h1
      have hlow : Char.toLower a = a := by rw [ha]; decide
      have hmap : (goToLower (trimSpace s)).data = a :: r.map Char.toLower := by
        show (trimSpace s).data.map Char.toLower = _
        rw [hd, List.map_cons, hlow]
      have hq : ("'").data = [a] := h1.symm
      have hkwdata :
          ("'" ++ goToLower (trimSpace s) ++ "'").data.take 2 = ("''").data := by
        rw [String.data_append, String.data_append, hmap, hq]
        have h2 : (([a] ++ (a :: r.map Char.toLower)) ++ [a]).take 2 = [a, a] := rfl
        rw [h2, ha]
        decide
      have hfalse := not_keyword_of_double_quote _ hkwdata
      have he : canon s =
          if IsKeywordSource ("'" ++ goToLower (trimSpace s) ++ "'")
          then "'" ++ goToLower (trimSpace s) ++ "'" else trimSpace s := rfl
      rw [he]
      simp [hfalse]

/-- Claim C10 witness: the verbatim-return theorem applied at the quoted
upper-case token of the claim. -/
theorem quoted_uppercase_not_canonicalized_witness :
    canon "'SELF'" = trimSpace "'SELF'" :=
  quoted_uppercase_not_canonicalized.1 "'SELF'" (by decide)

end CSP

